import Mathlib

/-!
Verification of the FuzzManagerCollector match-predicate engine
(`src/Signatures/Matchers.py`) and the submission client's retry loop
(`src/Collector.py`).

The source is Python 2 (`unicode`, `long` are referenced), so numeric
comparisons between an integer and `None` are total: `None` compares
strictly below every integer.  Strings are modelled as `List Char`,
absence (`None`) as `Option`, and exceptions as `Except` / `Option`.
-/

/-! ### A small regular-expression engine

Modelled from the spec: `re.compile` / `re.search` (the Python standard
library, not repository code).  Only the sublanguage the repository's
claims exercise is compiled: plain characters, `.` and a postfix `*`;
any other metacharacter is a compile failure.  Matching is defined by a
declarative relation `Regex.RMatches` and decided with Brzozowski
derivatives; `re.search` semantics (an unanchored match anywhere in the
candidate) is `Regex.regexSearch`. -/

inductive Regex where
  | emp
  | eps
  | char (c : Char)
  | any
  | alt (r₁ r₂ : Regex)
  | seq (r₁ r₂ : Regex)
  | star (r : Regex)
deriving DecidableEq, Repr

def Regex.nullable : Regex → Bool
  | .emp => false
  | .eps => true
  | .char _ => false
  | .any => false
  | .alt r₁ r₂ => r₁.nullable || r₂.nullable
  | .seq r₁ r₂ => r₁.nullable && r₂.nullable
  | .star _ => true

def Regex.deriv : Regex → Char → Regex
  | .emp, _ => .emp
  | .eps, _ => .emp
  | .char c₀, c => if c₀ = c then .eps else .emp
  | .any, _ => .eps
  | .alt r₁ r₂, c => .alt (r₁.deriv c) (r₂.deriv c)
  | .seq r₁ r₂, c =>
      if r₁.nullable then .alt (.seq (r₁.deriv c) r₂) (r₂.deriv c)
      else .seq (r₁.deriv c) r₂
  | .star r, c => .seq (r.deriv c) (.star r)

/-- Declarative matching semantics for `Regex`. -/
inductive Regex.RMatches : Regex → List Char → Prop where
  | eps : Regex.RMatches .eps []
  | char (c : Char) : Regex.RMatches (.char c) [c]
  | any (c : Char) : Regex.RMatches .any [c]
  | altL {r₁ r₂ : Regex} {s : List Char} :
      Regex.RMatches r₁ s → Regex.RMatches (.alt r₁ r₂) s
  | altR {r₁ r₂ : Regex} {s : List Char} :
      Regex.RMatches r₂ s → Regex.RMatches (.alt r₁ r₂) s
  | seq {r₁ r₂ : Regex} {s₁ s₂ : List Char} :
      Regex.RMatches r₁ s₁ → Regex.RMatches r₂ s₂ →
      Regex.RMatches (.seq r₁ r₂) (s₁ ++ s₂)
  | starNil {r : Regex} : Regex.RMatches (.star r) []
  | starCons {r : Regex} {s₁ s₂ : List Char} :
      Regex.RMatches r s₁ → Regex.RMatches (.star r) s₂ →
      Regex.RMatches (.star r) (s₁ ++ s₂)

/-- Anchored full match via iterated derivatives (`re.match` of the whole
string, used only to contrast search with full-match semantics). -/
def Regex.rmatch (r : Regex) (s : List Char) : Bool :=
  (s.foldl Regex.deriv r).nullable

/-- Does `r` match some initial segment of `s`? -/
def Regex.searchHere : Regex → List Char → Bool
  | r, [] => r.nullable
  | r, c :: s => r.nullable || (r.deriv c).searchHere s

/-- `re.search` semantics: does `r` match a contiguous segment of `s`
starting at any position? -/
def Regex.regexSearch : Regex → List Char → Bool
  | r, [] => r.nullable
  | r, c :: s => r.searchHere (c :: s) || r.regexSearch s

/-! ### Python string primitives used by `Matchers.py` -/

/-- Python whitespace as recognised by `str.split(None, ...)` and by
`long(..., 16)`: space, tab, newline, carriage return, vertical tab,
form feed. -/
def pyIsSpace (c : Char) : Bool :=
  c = ' ' || c = '\t' || c = '\n' || c = '\r' || c = Char.ofNat 11 || c = Char.ofNat 12

/-- Python `s.startswith(p)`. -/
def startsWithL : List Char → List Char → Bool
  | _, [] => true
  | [], _ :: _ => false
  | c :: s, d :: p => c = d && startsWithL s p

/-- Python `s.endswith(p)`. -/
def endsWithL (s p : List Char) : Bool :=
  startsWithL s.reverse p.reverse

/-- Python `p in s` (contiguous substring containment). -/
def containsSub : List Char → List Char → Bool
  | [], p => startsWithL [] p
  | s@(_ :: t), p => startsWithL s p || containsSub t p

/-- Python `s.lower()`. -/
def lowerL (s : List Char) : List Char :=
  s.map Char.toLower

/-- Python `s.split(None, 1)`: strip leading whitespace; if nothing is
left, the result is empty; otherwise the first token runs to the next
whitespace and the remainder (with the separating whitespace run
removed, trailing whitespace kept) is the second element when
non-empty. -/
def pySplit1 (s : List Char) : List (List Char) :=
  if s.dropWhile pyIsSpace = [] then []
  else if ((s.dropWhile pyIsSpace).dropWhile (fun c => !pyIsSpace c)).dropWhile pyIsSpace = [] then
    [(s.dropWhile pyIsSpace).takeWhile (fun c => !pyIsSpace c)]
  else
    [(s.dropWhile pyIsSpace).takeWhile (fun c => !pyIsSpace c),
     ((s.dropWhile pyIsSpace).dropWhile (fun c => !pyIsSpace c)).dropWhile pyIsSpace]

/-- Python `s.strip()` as applied by `long(s, 16)` to its argument. -/
def pyStrip (s : List Char) : List Char :=
  ((s.dropWhile pyIsSpace).reverse.dropWhile pyIsSpace).reverse

/-- Value of one hexadecimal digit, `none` for any other character. -/
def hexDigVal (c : Char) : Option Nat :=
  if 48 ≤ c.toNat ∧ c.toNat ≤ 57 then some (c.toNat - 48)
  else if 97 ≤ c.toNat ∧ c.toNat ≤ 102 then some (c.toNat - 87)
  else if 65 ≤ c.toNat ∧ c.toNat ≤ 70 then some (c.toNat - 55)
  else none

def hexValAux : Nat → List Char → Option Nat
  | acc, [] => some acc
  | acc, c :: t =>
      match hexDigVal c with
      | some d => hexValAux (16 * acc + d) t
      | none => none

/-- The unsigned part of Python's base-16 string parsing: an optional
`0x`/`0X` marker followed by at least one hexadecimal digit. -/
def hexBody (s : List Char) : Option Nat :=
  let s' :=
    match s with
    | '0' :: c :: rest => if c = 'x' || c = 'X' then rest else s
    | _ => s
  match s' with
  | [] => none
  | _ => hexValAux 0 s'

/-- Python 2 `long(s, 16)`: surrounding whitespace is ignored, an
optional single sign is honoured, the digits are always read in base 16
(a redundant `0x` marker is allowed), and anything else is a
`ValueError`, reported here as `none`. -/
def pyLong16 (s : List Char) : Option Int :=
  match pyStrip s with
  | '+' :: rest => (hexBody rest).map (fun n => (n : Int))
  | '-' :: rest => (hexBody rest).map (fun n => -(n : Int))
  | rest => (hexBody rest).map (fun n => (n : Int))

/-! ### The matcher data model (`src/Signatures/Matchers.py`) -/

/-- The construction-time failures of `Matchers.py` (all surfaced as
`RuntimeError`/`IndexError` in the source; the constructors are kept
apart here so that theorems can tell them apart). -/
inductive MatchError where
  | unknownOperator (tok : List Char)
  | invalidNumber (tok : List Char)
  | invalidPattern
  | missingField
  | indexError
  | invalidType
deriving DecidableEq, Repr

instance {ε α : Type} [DecidableEq ε] [DecidableEq α] : DecidableEq (Except ε α) := by
  intro a b
  cases a with
  | error e =>
      cases b with
      | error f =>
          cases decEq e f with
          | isTrue h => exact isTrue (by rw [h])
          | isFalse h => exact isFalse (fun hc => h (by injection hc))
      | ok y => exact isFalse (fun hc => by injection hc)
  | ok x =>
      cases b with
      | error f => exact isFalse (fun hc => by injection hc)
      | ok y =>
          cases decEq x y with
          | isTrue h => exact isTrue (by rw [h])
          | isFalse h => exact isFalse (fun hc => h (by injection hc))

/-- Metacharacters the modelled regex compiler refuses (everything the
sublanguage of characters, `.` and postfix `*` cannot express). -/
def regexMeta : List Char :=
  ['*', '+', '?', '(', ')', '[', ']', '|', '^', '$', '\\', Char.ofNat 123, Char.ofNat 125]

/-- Modelled from the spec: `re.compile` (Python standard library).  The
compiled form of a pattern in the modelled sublanguage; `none` is a
compile failure (`re.error`). -/
def parseRegex : List Char → Option Regex
  | [] => some .eps
  | [c] =>
      if c ∈ regexMeta then none
      else some (.seq (if c = '.' then .any else .char c) .eps)
  | c :: d :: rest =>
      if c ∈ regexMeta then none
      else
        let a : Regex := if c = '.' then .any else .char c
        if d = '*' then (parseRegex rest).map (fun r => .seq (.star a) r)
        else (parseRegex (d :: rest)).map (fun r => .seq a r)

/-- The state of a constructed `StringMatch`. -/
structure StringMatch where
  value : List Char
  isPCRE : Bool
  compiledValue : Option Regex
deriving DecidableEq, Repr

/-- Descriptor shapes accepted by `StringMatch.__init__`: a plain string
or a structured object with optional string fields `value` and
`matchType` (field lookup is performed by `JSONHelper.getStringChecked`,
which is not under `src/`). -/
inductive StrDescriptor where
  | str (s : List Char)
  | obj (value : Option (List Char)) (matchType : Option (List Char))

/-- Modelled from the spec: `JSONHelper.getStringChecked` (module
`Signatures/JSONHelper.py`, absent from `src/`).  A required field that
is missing fails with the missing-field error; an optional missing field
yields no value; a present string field is returned unchanged. -/
def getStringChecked (field : Option (List Char)) (required : Bool) :
    Except MatchError (Option (List Char)) :=
  match field with
  | none => if required then .error .missingField else .ok none
  | some v => .ok (some v)

/-- `StringMatch.__init__` (`Matchers.py` lines 24-53). -/
def StringMatch.construct : StrDescriptor → Except MatchError StringMatch
  | .str s =>
      if startsWithL s ['/'] && endsWithL s ['/'] then
        match parseRegex ((s.drop 1).dropLast) with
        | some r => .ok ⟨(s.drop 1).dropLast, true, some r⟩
        | none => .error .invalidPattern
      else .ok ⟨s, false, none⟩
  | .obj value mt =>
      match getStringChecked value true with
      | .error e => .error e
      | .ok none => .error .missingField
      | .ok (some v) =>
          match getStringChecked mt false with
          | .error e => .error e
          | .ok none => .ok ⟨v, false, none⟩
          | .ok (some t) =>
              if lowerL t = "contains".toList then .ok ⟨v, false, none⟩
              else if lowerL t = "pcre".toList then
                match parseRegex v with
                | some r => .ok ⟨v, true, some r⟩
                | none => .error .invalidPattern
              else .error (.unknownOperator t)

/-- `StringMatch.matches` (`Matchers.py` lines 55-59).  The result is
`none` when the Python code would raise (only possible when `isPCRE` is
set but no compiled pattern is present, an unreachable state for
constructed matchers). -/
def StringMatch.matches (m : StringMatch) (s : List Char) : Option Bool :=
  if m.isPCRE then
    match m.compiledValue with
    | some r => some (r.regexSearch s)
    | none => none
  else some (containsSub s m.value)

/-- `NumberMatchType` (`Matchers.py` lines 70-71). -/
inductive NumberMatchType where
  | GE
  | GT
  | LE
  | LT
deriving DecidableEq, Repr

/-- The state of a constructed `NumberMatch`; `matchType = none` is the
Python `None` default (equality), `value = none` the "no crash address"
sentinel. -/
structure NumberMatch where
  matchType : Option NumberMatchType
  value : Option Int
deriving DecidableEq, Repr

/-- Descriptor shapes accepted by `NumberMatch.__init__`: a string, an
integer, or anything else (which is rejected). -/
inductive NumDescriptor where
  | str (s : List Char)
  | int (n : Int)
  | other

/-- The shared tail of `NumberMatch.__init__`: parse the numeric token
in base 16, keeping the match type chosen before. -/
def parseNumToken (mt : Option NumberMatchType) (tok : List Char) :
    Except MatchError NumberMatch :=
  match pyLong16 tok with
  | some v => .ok ⟨mt, some v⟩
  | none => .error (.invalidNumber tok)

/-- `NumberMatch.__init__` (`Matchers.py` lines 74-110).  A whitespace-only
descriptor makes `numberMatchComponents` empty and the source's
`numberMatchComponents[numIdx]` raises `IndexError`. -/
def NumberMatch.construct : NumDescriptor → Except MatchError NumberMatch
  | .str s =>
      if s.length > 0 then
        match pySplit1 s with
        | [] => .error .indexError
        | [tok] => parseNumToken none tok
        | tok :: rest :: _ =>
            if tok = "==".toList then parseNumToken none rest
            else if tok = "<".toList then parseNumToken (some .LT) rest
            else if tok = "<=".toList then parseNumToken (some .LE) rest
            else if tok = ">".toList then parseNumToken (some .GT) rest
            else if tok = ">=".toList then parseNumToken (some .GE) rest
            else .error (.unknownOperator tok)
      else .ok ⟨none, none⟩
  | .int n => .ok ⟨none, some n⟩
  | .other => .error .invalidType

/-- Python 2 `value >= self.value`: `None` is below every integer. -/
def pyGE (v : Int) : Option Int → Bool
  | none => true
  | some r => decide (v ≥ r)

/-- Python 2 `value > self.value`. -/
def pyGT (v : Int) : Option Int → Bool
  | none => true
  | some r => decide (v > r)

/-- Python 2 `value <= self.value`. -/
def pyLE (v : Int) : Option Int → Bool
  | none => false
  | some r => decide (v ≤ r)

/-- Python 2 `value < self.value`. -/
def pyLT (v : Int) : Option Int → Bool
  | none => false
  | some r => decide (v < r)

/-- Python 2 `value == self.value` for an integer `value`. -/
def pyEqN (v : Int) : Option Int → Bool
  | none => false
  | some r => decide (v = r)

/-- `NumberMatch.matches` (`Matchers.py` lines 112-125). -/
def NumberMatch.matches (m : NumberMatch) : Option Int → Bool
  | none => m.value.isNone
  | some v =>
      match m.matchType with
      | some .GE => pyGE v m.value
      | some .GT => pyGT v m.value
      | some .LE => pyLE v m.value
      | some .LT => pyLT v m.value
      | none => pyEqN v m.value

/-! ### The submission client's retry loop (`src/Collector.py`) -/

/-- `requests.codes["created"]`. -/
def createdCode : Nat := 201

/-- The transient statuses `Collector.submit` is willing to retry. -/
def retryCodes : List Nat := [500, 502, 503, 504]

inductive SubmitOutcome where
  | success
  | serverError (code : Nat)
  | pending
deriving DecidableEq, Repr

/-- One run of the `while True` loop in `Collector.submit`: the sleeps
performed (in order) and how the loop ended. -/
structure SubmitRun where
  sleeps : List Nat
  outcome : SubmitOutcome
deriving DecidableEq, Repr

/-- The `while True` loop of `Collector.submit` (`Collector.py` lines
240-255), driven by the sequence of HTTP statuses the successive POSTs
return.  `pending` means the loop would POST again but the given
sequence is exhausted. -/
def submitLoop : Nat → List Nat → SubmitRun
  | _, [] => ⟨[], .pending⟩
  | t, code :: rest =>
      if code ≠ createdCode then
        if code ∈ retryCodes ∧ t ≤ 64 then
          let r := submitLoop (t * 2) rest
          ⟨t :: r.sleeps, r.outcome⟩
        else ⟨[], .serverError code⟩
      else ⟨[], .success⟩

/-- `Collector.submit`'s POST loop, started with `current_timeout = 2`. -/
def submit (responses : List Nat) : SubmitRun :=
  submitLoop 2 responses

/-! ### Auxiliary definitions used only to state the claims -/

/-- The five comparison tokens of the numeric descriptor language. -/
inductive CmpTok where
  | eq
  | lt
  | le
  | gt
  | ge
deriving DecidableEq, Repr

/-- The concrete operator token. -/
def CmpTok.tok : CmpTok → List Char
  | .eq => "==".toList
  | .lt => "<".toList
  | .le => "<=".toList
  | .gt => ">".toList
  | .ge => ">=".toList

/-- The `matchType` the source stores for the token; `==` is a `pass`, so
the default (`none`, equality) is kept. -/
def CmpTok.toMT : CmpTok → Option NumberMatchType
  | .eq => none
  | .lt => some .LT
  | .le => some .LE
  | .gt => some .GT
  | .ge => some .GE

/-- The arithmetic comparison named by the token, candidate on the left. -/
def CmpTok.eval : CmpTok → Int → Int → Bool
  | .eq, c, r => decide (c = r)
  | .lt, c, r => decide (c < r)
  | .le, c, r => decide (c ≤ r)
  | .gt, c, r => decide (c > r)
  | .ge, c, r => decide (c ≥ r)

/-- Is the token one of the recognised comparison operators? -/
def isOpTok (tok : List Char) : Bool :=
  tok = "==".toList || tok = "<".toList || tok = "<=".toList ||
    tok = ">".toList || tok = ">=".toList

/-- The `matchType` stored for a recognised operator token. -/
def opOf (tok : List Char) : Option NumberMatchType :=
  if tok = "<".toList then some .LT
  else if tok = "<=".toList then some .LE
  else if tok = ">".toList then some .GT
  else if tok = ">=".toList then some .GE
  else none

/-- The compiled form of the pattern `abc.*` under `parseRegex`. -/
def rAbc : Regex :=
  .seq (.char 'a') (.seq (.char 'b') (.seq (.char 'c') (.seq (.star .any) .eps)))
theorem Regex.nullable_sound : ∀ {r : Regex}, r.nullable = true → r.RMatches [] := by
  intro r
  induction r with
  | emp => intro h; simp [Regex.nullable] at h
  | eps => intro _; exact .eps
  | char c => intro h; simp [Regex.nullable] at h
  | any => intro h; simp [Regex.nullable] at h
  | alt r₁ r₂ ih₁ ih₂ =>
      intro h
      rcases Bool.or_eq_true_iff.mp h with h₁ | h₂
      · exact .altL (ih₁ h₁)
      · exact .altR (ih₂ h₂)
  | seq r₁ r₂ ih₁ ih₂ =>
      intro h
      rcases Bool.and_eq_true_iff.mp h with ⟨h₁, h₂⟩
      exact (List.nil_append []) ▸ Regex.RMatches.seq (ih₁ h₁) (ih₂ h₂)
  | star r _ => intro _; exact .starNil

theorem Regex.nullable_complete :
    ∀ {r : Regex} {l : List Char}, r.RMatches l → l = [] → r.nullable = true := by
  intro r l h
  induction h with
  | eps => intro _; rfl
  | char c => intro h; simp at h
  | any c => intro h; simp at h
  | altL _ ih =>
      intro he
      exact Bool.or_eq_true_iff.mpr (Or.inl (ih he))
  | altR _ ih =>
      intro he
      exact Bool.or_eq_true_iff.mpr (Or.inr (ih he))
  | seq _ _ ih₁ ih₂ =>
      intro he
      rcases List.append_eq_nil.mp he with ⟨he₁, he₂⟩
      exact Bool.and_eq_true_iff.mpr ⟨ih₁ he₁, ih₂ he₂⟩
  | starNil => intro _; rfl
  | starCons _ _ _ _ => intro _; rfl

theorem Regex.nullable_iff (r : Regex) : r.nullable = true ↔ r.RMatches [] :=
  ⟨Regex.nullable_sound, fun h => Regex.nullable_complete h rfl⟩

theorem Regex.deriv_sound :
    ∀ {r : Regex} {c : Char} {s : List Char},
      (r.deriv c).RMatches s → r.RMatches (c :: s) := by
  intro r
  induction r with
  | emp => intro c s h; exact nomatch h
  | eps => intro c s h; exact nomatch h
  | char c₀ =>
      intro c s h
      simp only [Regex.deriv] at h
      by_cases hc : c₀ = c
      · rw [if_pos hc] at h
        cases h
        exact hc ▸ Regex.RMatches.char c₀
      · rw [if_neg hc] at h
        exact nomatch h
  | any =>
      intro c s h
      cases h
      exact .any c
  | alt r₁ r₂ ih₁ ih₂ =>
      intro c s h
      cases h with
      | altL h₁ => exact .altL (ih₁ h₁)
      | altR h₂ => exact .altR (ih₂ h₂)
  | seq r₁ r₂ ih₁ ih₂ =>
      intro c s h
      simp only [Regex.deriv] at h
      by_cases hn : r₁.nullable = true
      · rw [if_pos hn] at h
        cases h with
        | altL h₁ =>
            cases h₁ with
            | seq hd h₂ =>
                have h' := Regex.RMatches.seq (ih₁ hd) h₂
                rw [List.cons_append] at h'
                exact h'
        | altR h₂ =>
            have h' := Regex.RMatches.seq (Regex.nullable_sound hn) (ih₂ h₂)
            rw [List.nil_append] at h'
            exact h'
      · rw [if_neg hn] at h
        cases h with
        | seq hd h₂ =>
            have h' := Regex.RMatches.seq (ih₁ hd) h₂
            rw [List.cons_append] at h'
            exact h'
  | star r ih =>
      intro c s h
      cases h with
      | seq hd h₂ =>
          have h' := Regex.RMatches.starCons (ih hd) h₂
          rw [List.cons_append] at h'
          exact h'

theorem Regex.deriv_complete :
    ∀ {r : Regex} {l : List Char}, r.RMatches l →
      ∀ {c : Char} {s : List Char}, l = c :: s → (r.deriv c).RMatches s := by
  intro r l h
  induction h with
  | eps => intro c s he; simp at he
  | char c₀ =>
      intro c s he
      injection he with hc hs
      subst hc
      subst hs
      simp only [Regex.deriv, if_pos rfl]
      exact .eps
  | any c₀ =>
      intro c s he
      injection he with hc hs
      subst hs
      exact .eps
  | altL _ ih => intro c s he; exact .altL (ih he)
  | altR _ ih => intro c s he; exact .altR (ih he)
  | seq h₁ h₂ ih₁ ih₂ =>
      rename_i r₁ r₂ s₁ s₂
      intro c s he
      cases s₁ with
      | nil =>
          rw [List.nil_append] at he
          have hn : r₁.nullable = true := Regex.nullable_complete h₁ rfl
          simp only [Regex.deriv, if_pos hn]
          exact .altR (ih₂ he)
      | cons d t =>
          rw [List.cons_append] at he
          injection he with hc hs
          subst hc
          subst hs
          simp only [Regex.deriv]
          by_cases hn : r₁.nullable = true
          · rw [if_pos hn]
            exact .altL (.seq (ih₁ rfl) h₂)
          · rw [if_neg hn]
            exact .seq (ih₁ rfl) h₂
  | starNil => intro c s he; simp at he
  | starCons h₁ h₂ ih₁ ih₂ =>
      rename_i r s₁ s₂
      intro c s he
      cases s₁ with
      | nil =>
          rw [List.nil_append] at he
          exact ih₂ he
      | cons d t =>
          rw [List.cons_append] at he
          injection he with hc hs
          subst hc
          subst hs
          exact .seq (ih₁ rfl) h₂

theorem Regex.deriv_iff (r : Regex) (c : Char) (s : List Char) :
    (r.deriv c).RMatches s ↔ r.RMatches (c :: s) :=
  ⟨Regex.deriv_sound, fun h => Regex.deriv_complete h rfl⟩

theorem Regex.searchHere_iff (r : Regex) (s : List Char) :
    r.searchHere s = true ↔ ∃ t u, s = t ++ u ∧ r.RMatches t := by
  induction s generalizing r with
  | nil =>
      simp only [Regex.searchHere]
      constructor
      · intro h
        exact ⟨[], [], rfl, Regex.nullable_sound h⟩
      · rintro ⟨t, u, he, hm⟩
        rcases List.append_eq_nil.mp he.symm with ⟨ht, _⟩
        subst ht
        exact Regex.nullable_complete hm rfl
  | cons c s ih =>
      simp only [Regex.searchHere, Bool.or_eq_true_iff]
      constructor
      · rintro (h | h)
        · exact ⟨[], c :: s, rfl, Regex.nullable_sound h⟩
        · rcases (ih (r.deriv c)).mp h with ⟨t, u, he, hm⟩
          exact ⟨c :: t, u, by rw [he, List.cons_append], Regex.deriv_sound hm⟩
      · rintro ⟨t, u, he, hm⟩
        cases t with
        | nil =>
            exact Or.inl (Regex.nullable_complete hm rfl)
        | cons d t' =>
            rw [List.cons_append] at he
            injection he with hc hs
            subst hc
            exact Or.inr ((ih (r.deriv c)).mpr
              ⟨t', u, hs, Regex.deriv_complete hm rfl⟩)

theorem Regex.regexSearch_iff (r : Regex) (s : List Char) :
    r.regexSearch s = true ↔
      ∃ pre mid post, s = pre ++ mid ++ post ∧ r.RMatches mid := by
  induction s with
  | nil =>
      simp only [Regex.regexSearch]
      constructor
      · intro h
        exact ⟨[], [], [], rfl, Regex.nullable_sound h⟩
      · rintro ⟨pre, mid, post, he, hm⟩
        rcases List.append_eq_nil.mp (List.append_eq_nil.mp he.symm).1 with ⟨_, hm0⟩
        subst hm0
        exact Regex.nullable_complete hm rfl
  | cons c s ih =>
      simp only [Regex.regexSearch, Bool.or_eq_true_iff]
      constructor
      · rintro (h | h)
        · rcases (Regex.searchHere_iff r (c :: s)).mp h with ⟨t, u, he, hm⟩
          exact ⟨[], t, u, by rw [List.nil_append, he], hm⟩
        · rcases ih.mp h with ⟨pre, mid, post, he, hm⟩
          exact ⟨c :: pre, mid, post, by rw [he]; simp, hm⟩
      · rintro ⟨pre, mid, post, he, hm⟩
        cases pre with
        | nil =>
            rw [List.nil_append] at he
            exact Or.inl ((Regex.searchHere_iff r (c :: s)).mpr
              ⟨mid, post, he, hm⟩)
        | cons d pre' =>
            rw [List.cons_append, List.cons_append] at he
            injection he with hc hs
            exact Or.inr (ih.mpr ⟨pre', mid, post, hs, hm⟩)


/-! ### Properties of the Python string primitives -/

theorem startsWithL_iff (s p : List Char) :
    startsWithL s p = true ↔ ∃ t, s = p ++ t := by
  induction p generalizing s with
  | nil =>
      constructor
      · intro _
        exact ⟨s, rfl⟩
      · intro _
        cases s <;> rfl
  | cons d p ih =>
      cases s with
      | nil =>
          constructor
          · intro h
            simp [startsWithL] at h
          · rintro ⟨t, ht⟩
            simp at ht
      | cons c s' =>
          constructor
          · intro h
            simp only [startsWithL, Bool.and_eq_true_iff, decide_eq_true_eq] at h
            rcases h with ⟨hc, hs⟩
            rcases (ih s').mp hs with ⟨t, ht⟩
            exact ⟨t, by rw [hc, ht, List.cons_append]⟩
          · rintro ⟨t, ht⟩
            rw [List.cons_append] at ht
            injection ht with hc hs
            simp only [startsWithL, Bool.and_eq_true_iff, decide_eq_true_eq]
            exact ⟨hc, (ih s').mpr ⟨t, hs⟩⟩

theorem containsSub_iff (s p : List Char) :
    containsSub s p = true ↔ ∃ pre post, s = pre ++ p ++ post := by
  induction s with
  | nil =>
      rw [show containsSub [] p = startsWithL [] p from rfl, startsWithL_iff]
      constructor
      · rintro ⟨t, ht⟩
        exact ⟨[], t, by rw [List.nil_append]; exact ht⟩
      · rintro ⟨pre, post, h⟩
        rcases List.append_eq_nil.mp h.symm with ⟨h₁, h₂⟩
        rcases List.append_eq_nil.mp h₁ with ⟨h₃, h₄⟩
        exact ⟨post, by rw [h₄, List.nil_append, h₂]⟩
  | cons c t ih =>
      rw [show containsSub (c :: t) p =
            (startsWithL (c :: t) p || containsSub t p) from rfl]
      rw [Bool.or_eq_true_iff, startsWithL_iff, ih]
      constructor
      · rintro (⟨u, hu⟩ | ⟨pre, post, h⟩)
        · exact ⟨[], u, by rw [List.nil_append]; exact hu⟩
        · refine ⟨c :: pre, post, ?_⟩
          rw [List.cons_append, List.cons_append, h]
      · rintro ⟨pre, post, h⟩
        cases pre with
        | nil =>
            rw [List.nil_append] at h
            exact Or.inl ⟨post, h⟩
        | cons d pre' =>
            rw [List.cons_append, List.cons_append] at h
            injection h with hc hs
            exact Or.inr ⟨pre', post, hs⟩

theorem hexDigVal_isSome_not_space {c : Char}
    (h : (hexDigVal c).isSome = true) : pyIsSpace c = false := by
  by_contra hs
  rw [Bool.not_eq_false] at hs
  simp only [pyIsSpace, Bool.or_eq_true_iff, decide_eq_true_eq] at hs
  rcases hs with ((((rfl | rfl) | rfl) | rfl) | rfl) | rfl <;>
    exact absurd h (by decide)

theorem takeWhile_nospace_append (tok rest : List Char)
    (h : ∀ x ∈ tok, pyIsSpace x = false) :
    (tok ++ ' ' :: rest).takeWhile (fun c => !pyIsSpace c) = tok := by
  induction tok with
  | nil =>
      rw [List.nil_append]
      exact List.takeWhile_cons_of_neg (by decide)
  | cons a t ih =>
      have ha : pyIsSpace a = false := h a (by simp)
      rw [List.cons_append, List.takeWhile_cons_of_pos (by simp [ha])]
      rw [ih (fun x hx => h x (by simp [hx]))]

theorem dropWhile_nospace_append (tok rest : List Char)
    (h : ∀ x ∈ tok, pyIsSpace x = false) :
    (tok ++ ' ' :: rest).dropWhile (fun c => !pyIsSpace c) = ' ' :: rest := by
  induction tok with
  | nil =>
      rw [List.nil_append]
      exact List.dropWhile_cons_of_neg (by decide)
  | cons a t ih =>
      have ha : pyIsSpace a = false := h a (by simp)
      rw [List.cons_append, List.dropWhile_cons_of_pos (by simp [ha])]
      exact ih (fun x hx => h x (by simp [hx]))

theorem takeWhile_nospace_all (tok : List Char)
    (h : ∀ x ∈ tok, pyIsSpace x = false) :
    tok.takeWhile (fun c => !pyIsSpace c) = tok := by
  induction tok with
  | nil => rfl
  | cons a t ih =>
      have ha : pyIsSpace a = false := h a (by simp)
      rw [List.takeWhile_cons_of_pos (by simp [ha])]
      rw [ih (fun x hx => h x (by simp [hx]))]

theorem dropWhile_nospace_all (tok : List Char)
    (h : ∀ x ∈ tok, pyIsSpace x = false) :
    tok.dropWhile (fun c => !pyIsSpace c) = [] := by
  induction tok with
  | nil => rfl
  | cons a t ih =>
      have ha : pyIsSpace a = false := h a (by simp)
      rw [List.dropWhile_cons_of_pos (by simp [ha])]
      exact ih (fun x hx => h x (by simp [hx]))

theorem dropWhile_space_cons_id (a : Char) (t : List Char)
    (ha : pyIsSpace a = false) :
    (a :: t).dropWhile pyIsSpace = a :: t :=
  List.dropWhile_cons_of_neg (by simp [ha])

theorem pySplit1_two (tok : List Char) (c : Char) (t : List Char)
    (h₁ : tok ≠ []) (h₂ : ∀ x ∈ tok, pyIsSpace x = false)
    (hc : pyIsSpace c = false) :
    pySplit1 (tok ++ ' ' :: c :: t) = [tok, c :: t] := by
  obtain ⟨a, tok', rfl⟩ : ∃ a tok', tok = a :: tok' := by
    cases tok with
    | nil => exact absurd rfl h₁
    | cons a tok' => exact ⟨a, tok', rfl⟩
  have ha : pyIsSpace a = false := h₂ a (by simp)
  have hdropsp : ((a :: tok') ++ ' ' :: c :: t).dropWhile pyIsSpace =
      (a :: tok') ++ ' ' :: c :: t := by
    rw [List.cons_append]
    rw [dropWhile_space_cons_id a (tok' ++ ' ' :: c :: t) ha]
  have hdropq := dropWhile_nospace_append (a :: tok') (c :: t) h₂
  have htakeq := takeWhile_nospace_append (a :: tok') (c :: t) h₂
  have hrest : (' ' :: c :: t).dropWhile pyIsSpace = c :: t := by
    rw [List.dropWhile_cons_of_pos (by decide)]
    exact dropWhile_space_cons_id c t hc
  unfold pySplit1
  rw [hdropsp, hdropq, hrest, htakeq]
  rw [if_neg (by simp), if_neg (by simp)]

theorem pySplit1_single (tok : List Char)
    (h₁ : tok ≠ []) (h₂ : ∀ x ∈ tok, pyIsSpace x = false) :
    pySplit1 tok = [tok] := by
  obtain ⟨a, tok', rfl⟩ : ∃ a tok', tok = a :: tok' := by
    cases tok with
    | nil => exact absurd rfl h₁
    | cons a tok' => exact ⟨a, tok', rfl⟩
  have ha : pyIsSpace a = false := h₂ a (by simp)
  unfold pySplit1
  rw [dropWhile_space_cons_id a tok' ha]
  rw [dropWhile_nospace_all (a :: tok') h₂]
  rw [takeWhile_nospace_all (a :: tok') h₂]
  rw [if_neg (by simp)]
  simp

/-! ### Structural properties of the constructors -/

theorem parseNumToken_ok {mt : Option NumberMatchType} {tok : List Char}
    {m : NumberMatch} (h : parseNumToken mt tok = .ok m) :
    ∃ v, pyLong16 tok = some v ∧ m = ⟨mt, some v⟩ := by
  unfold parseNumToken at h
  cases hp : pyLong16 tok with
  | none => rw [hp] at h; exact Except.noConfusion h
  | some v =>
      rw [hp] at h
      injection h with h'
      exact ⟨v, rfl, h'.symm⟩

theorem parseNumToken_ne_unknownOperator (mt : Option NumberMatchType)
    (tok u : List Char) : parseNumToken mt tok ≠ .error (.unknownOperator u) := by
  unfold parseNumToken
  cases hp : pyLong16 tok <;> simp

/-- Complete case analysis of `NumberMatch.__init__` on a string
descriptor. -/
theorem NumberMatch.construct_str_spec (s : List Char) :
    (s = [] ∧ NumberMatch.construct (.str s) = .ok ⟨none, none⟩) ∨
    (s ≠ [] ∧ pySplit1 s = [] ∧
       NumberMatch.construct (.str s) = .error .indexError) ∨
    (∃ tok, s ≠ [] ∧ pySplit1 s = [tok] ∧
       NumberMatch.construct (.str s) = parseNumToken none tok) ∨
    (∃ tok rest tl, s ≠ [] ∧ pySplit1 s = tok :: rest :: tl ∧
       ((isOpTok tok = true ∧
           NumberMatch.construct (.str s) = parseNumToken (opOf tok) rest) ∨
        (isOpTok tok = false ∧
           NumberMatch.construct (.str s) = .error (.unknownOperator tok)))) := by
  by_cases h0 : s = []
  · subst h0
    exact Or.inl ⟨rfl, rfl⟩
  · have hl : s.length > 0 := List.length_pos.mpr h0
    cases hsp : pySplit1 s with
    | nil =>
        refine Or.inr (Or.inl ⟨h0, rfl, ?_⟩)
        simp only [NumberMatch.construct]
        rw [if_pos hl]
        simp only [hsp]
    | cons tok rest =>
        cases rest with
        | nil =>
            refine Or.inr (Or.inr (Or.inl ⟨tok, h0, rfl, ?_⟩))
            simp only [NumberMatch.construct]
            rw [if_pos hl]
            simp only [hsp]
        | cons r2 tl =>
            refine Or.inr (Or.inr (Or.inr ⟨tok, r2, tl, h0, rfl, ?_⟩))
            by_cases hop : isOpTok tok = true
            · refine Or.inl ⟨hop, ?_⟩
              simp only [isOpTok, Bool.or_eq_true_iff, decide_eq_true_eq] at hop
              simp only [NumberMatch.construct]
              rw [if_pos hl]
              simp only [hsp]
              rcases hop with (((rfl | rfl) | rfl) | rfl) | rfl
              · rw [if_pos rfl]
                rw [show opOf "==".toList = none from by decide]
              · rw [if_neg (by decide), if_pos rfl]
                rw [show opOf "<".toList = some NumberMatchType.LT from by decide]
              · rw [if_neg (by decide), if_neg (by decide), if_pos rfl]
                rw [show opOf "<=".toList = some NumberMatchType.LE from by decide]
              · rw [if_neg (by decide), if_neg (by decide), if_neg (by decide),
                    if_pos rfl]
                rw [show opOf ">".toList = some NumberMatchType.GT from by decide]
              · rw [if_neg (by decide), if_neg (by decide), if_neg (by decide),
                    if_neg (by decide), if_pos rfl]
                rw [show opOf ">=".toList = some NumberMatchType.GE from by decide]
            · rw [Bool.not_eq_true] at hop
              refine Or.inr ⟨hop, ?_⟩
              have hne := hop
              simp only [isOpTok, Bool.or_eq_false_iff, decide_eq_false_iff_not] at hne
              obtain ⟨⟨⟨⟨h1, h2⟩, h3⟩, h4⟩, h5⟩ := hne
              simp only [NumberMatch.construct]
              rw [if_pos hl]
              simp only [hsp]
              rw [if_neg h1, if_neg h2, if_neg h3, if_neg h4, if_neg h5]

/-- The only constructed `NumberMatch` with an absent reference value is
the one built from the empty-string descriptor: both fields are `none`. -/
theorem numberMatch_ok_value_none {d : NumDescriptor} {m : NumberMatch}
    (h : NumberMatch.construct d = .ok m) (hv : m.value = none) :
    m = ⟨none, none⟩ := by
  cases d with
  | str s =>
      rcases NumberMatch.construct_str_spec s with
        ⟨_, hc⟩ | ⟨_, _, hc⟩ | ⟨tok, _, _, hc⟩ | ⟨tok, rest, tl, _, _, hor⟩
      · rw [hc] at h
        injection h with h'
        exact h'.symm
      · rw [hc] at h
        exact Except.noConfusion h
      · rw [hc] at h
        rcases parseNumToken_ok h with ⟨v, _, rfl⟩
        simp at hv
      · rcases hor with ⟨_, hc⟩ | ⟨_, hc⟩
        · rw [hc] at h
          rcases parseNumToken_ok h with ⟨v, _, rfl⟩
          simp at hv
        · rw [hc] at h
          exact Except.noConfusion h
  | int n =>
      simp only [NumberMatch.construct] at h
      injection h with h'
      subst h'
      simp at hv
  | other => exact Except.noConfusion h

/-- A constructed `StringMatch` in regex mode always owns a compiled
pattern. -/
theorem stringMatch_ok_regex {d : StrDescriptor} {m : StringMatch}
    (h : StringMatch.construct d = .ok m) (hP : m.isPCRE = true) :
    ∃ r, m.compiledValue = some r := by
  cases d with
  | str s =>
      simp only [StringMatch.construct] at h
      by_cases hc : (startsWithL s ['/'] && endsWithL s ['/']) = true
      · rw [if_pos hc] at h
        cases hp : parseRegex ((s.drop 1).dropLast) with
        | none => rw [hp] at h; exact Except.noConfusion h
        | some r =>
            rw [hp] at h
            injection h with h'
            subst h'
            exact ⟨r, rfl⟩
      · rw [if_neg hc] at h
        injection h with h'
        subst h'
        simp at hP
  | obj value mt =>
      cases value with
      | none => simp [StringMatch.construct, getStringChecked] at h
      | some v =>
          cases mt with
          | none =>
              simp only [StringMatch.construct, getStringChecked] at h
              injection h with h'
              subst h'
              simp at hP
          | some t =>
              simp only [StringMatch.construct, getStringChecked] at h
              by_cases h1 : lowerL t = "contains".toList
              · rw [if_pos h1] at h
                injection h with h'
                subst h'
                simp at hP
              · rw [if_neg h1] at h
                by_cases h2 : lowerL t = "pcre".toList
                · rw [if_pos h2] at h
                  cases hp : parseRegex v with
                  | none => rw [hp] at h; exact Except.noConfusion h
                  | some r =>
                      rw [hp] at h
                      injection h with h'
                      subst h'
                      exact ⟨r, rfl⟩
                · rw [if_neg h2] at h
                  exact Except.noConfusion h

/-! ### Properties of the submission retry loop -/

theorem submitLoop_sleeps_le (rs : List Nat) (t : Nat) :
    ∀ x ∈ (submitLoop t rs).sleeps, x ≤ 64 := by
  induction rs generalizing t with
  | nil =>
      intro x hx
      simp [submitLoop] at hx
  | cons code rest ih =>
      intro x hx
      simp only [submitLoop] at hx
      by_cases h1 : code ≠ createdCode
      · rw [if_pos h1] at hx
        by_cases h2 : code ∈ retryCodes ∧ t ≤ 64
        · rw [if_pos h2] at hx
          rcases List.mem_cons.mp hx with rfl | hx'
          · exact h2.2
          · exact ih (t * 2) x hx'
        · rw [if_neg h2] at hx
          simp at hx
      · rw [if_neg h1] at hx
        simp at hx

theorem submitLoop_sleeps_geom (rs : List Nat) (t : Nat) :
    ∃ n, (submitLoop t rs).sleeps = (List.range n).map (fun i => t * 2 ^ i) := by
  induction rs generalizing t with
  | nil => exact ⟨0, by simp [submitLoop]⟩
  | cons code rest ih =>
      by_cases h1 : code ≠ createdCode
      · by_cases h2 : code ∈ retryCodes ∧ t ≤ 64
        · rcases ih (t * 2) with ⟨n, hn⟩
          refine ⟨n + 1, ?_⟩
          simp only [submitLoop, if_pos h1, if_pos h2]
          rw [hn, List.range_succ_eq_map, List.map_cons, List.map_map]
          congr 1
          · simp
          · apply List.map_congr_left
            intro i _
            simp only [Function.comp_apply, Nat.succ_eq_add_one]
            ring
        · exact ⟨0, by simp [submitLoop, if_pos h1, if_neg h2]⟩
      · exact ⟨0, by simp [submitLoop, if_neg h1]⟩

theorem submitLoop_retry_responses (rs : List Nat) (t : Nat) (i : Nat)
    (hi : i < (submitLoop t rs).sleeps.length) :
    ∃ c, rs[i]? = some c ∧ c ∈ retryCodes ∧ c ≠ createdCode := by
  induction rs generalizing t i with
  | nil => simp [submitLoop] at hi
  | cons code rest ih =>
      simp only [submitLoop] at hi
      by_cases h1 : code ≠ createdCode
      · rw [if_pos h1] at hi
        by_cases h2 : code ∈ retryCodes ∧ t ≤ 64
        · rw [if_pos h2] at hi
          simp only [List.length_cons] at hi
          cases i with
          | zero => exact ⟨code, by simp, h2.1, h1⟩
          | succ j =>
              have hj : j < (submitLoop (t * 2) rest).sleeps.length :=
                Nat.lt_of_succ_lt_succ hi
              rcases ih (t * 2) j hj with ⟨c, hc, hm, hne⟩
              exact ⟨c, by simpa using hc, hm, hne⟩
        · rw [if_neg h2] at hi
          simp at hi
      · rw [if_neg h1] at hi
        simp at hi

theorem submit_sleeps_take (rs : List Nat) :
    ∃ n, n ≤ 6 ∧ (submit rs).sleeps = [2, 4, 8, 16, 32, 64].take n := by
  rcases submitLoop_sleeps_geom rs 2 with ⟨n, hn⟩
  have hle := submitLoop_sleeps_le rs 2
  have hn6 : n ≤ 6 := by
    by_contra hgt
    push_neg at hgt
    have h6 : (2 * 2 ^ 6 : Nat) ∈ (submitLoop 2 rs).sleeps := by
      rw [hn]
      exact List.mem_map.mpr ⟨6, List.mem_range.mpr hgt, rfl⟩
    have := hle _ h6
    norm_num at this
  refine ⟨n, hn6, ?_⟩
  show (submitLoop 2 rs).sleeps = _
  rw [hn]
  have hcase : n = 0 ∨ n = 1 ∨ n = 2 ∨ n = 3 ∨ n = 4 ∨ n = 5 ∨ n = 6 := by omega
  rcases hcase with rfl | rfl | rfl | rfl | rfl | rfl | rfl <;> decide

/-! ### The claims -/

/-- Claim C1: for every literal-mode text predicate with pattern `p` and
candidate `s`, `matches(s)` returns true iff `p` occurs as a contiguous,
case-sensitive substring of `s`. -/
theorem claim_C1 (m : StringMatch) (h : m.isPCRE = false) (s : List Char) :
    m.matches s = some true ↔ ∃ pre post, s = pre ++ m.value ++ post := by
  unfold StringMatch.matches
  rw [if_neg (by simp [h])]
  constructor
  · intro hm
    injection hm with hm
    exact (containsSub_iff s m.value).mp hm
  · intro he
    exact congrArg some ((containsSub_iff s m.value).mpr he)

theorem claim_C1_witness :
    (⟨"SEGV".toList, false, none⟩ : StringMatch).matches
        "signal SEGV received".toList = some true ↔
      ∃ pre post,
        "signal SEGV received".toList = pre ++ "SEGV".toList ++ post :=
  claim_C1 ⟨"SEGV".toList, false, none⟩ rfl "signal SEGV received".toList

/-- Claim C2: for every regex-mode text predicate, `matches(s)` is true iff
the compiled pattern matches some contiguous segment of `s` anywhere
(search, not anchored full match); the predicate built from `"/abc.*/"`
has pattern `abc.*`, is true on `"xxabcyy"`, false on `"xyz"`, and
`"xxabcyy"` is not an anchored full match of the pattern. -/
theorem claim_C2 :
    (∀ (m : StringMatch) (r : Regex), m.isPCRE = true →
       m.compiledValue = some r → ∀ s,
         m.matches s = some true ↔
           ∃ pre mid post, s = pre ++ mid ++ post ∧ r.RMatches mid) ∧
    (StringMatch.construct (.str "/abc.*/".toList) =
        .ok ⟨"abc.*".toList, true, some rAbc⟩ ∧
      (⟨"abc.*".toList, true, some rAbc⟩ : StringMatch).matches
          "xxabcyy".toList = some true ∧
      (⟨"abc.*".toList, true, some rAbc⟩ : StringMatch).matches
          "xyz".toList = some false ∧
      rAbc.rmatch "xxabcyy".toList = false) := by
  constructor
  · intro m r hP hC s
    unfold StringMatch.matches
    rw [if_pos (by simp [hP]), hC]
    constructor
    · intro hm
      injection hm with hm
      exact (Regex.regexSearch_iff r s).mp hm
    · intro he
      exact congrArg some ((Regex.regexSearch_iff r s).mpr he)
  · refine ⟨by decide, by decide, by decide, by decide⟩

theorem claim_C2_witness :
    (⟨"abc.*".toList, true, some rAbc⟩ : StringMatch).matches
        "xxabcyy".toList = some true ↔
      ∃ pre mid post,
        "xxabcyy".toList = pre ++ mid ++ post ∧ rAbc.RMatches mid :=
  claim_C2.1 ⟨"abc.*".toList, true, some rAbc⟩ rAbc rfl rfl "xxabcyy".toList

/-- Claim C3: for every numeric predicate, an absent candidate matches iff
the reference value is also absent, with the operator ignored in that
branch; and for every constructed predicate whose reference value is
absent, an absent candidate matches and every present integer fails. -/
theorem claim_C3 :
    (∀ m : NumberMatch, m.matches none = m.value.isNone) ∧
    (∀ (d : NumDescriptor) (m : NumberMatch),
       NumberMatch.construct d = .ok m → m.value = none →
         m.matches none = true ∧ ∀ n : Int, m.matches (some n) = false) := by
  constructor
  · intro m
    rfl
  · intro d m h hv
    have hm := numberMatch_ok_value_none h hv
    subst hm
    exact ⟨rfl, fun n => rfl⟩

theorem claim_C3_witness :
    (⟨none, none⟩ : NumberMatch).matches none = true ∧
      (⟨none, none⟩ : NumberMatch).matches (some 7) = false :=
  ⟨(claim_C3.2 (.str []) ⟨none, none⟩ rfl rfl).1,
   (claim_C3.2 (.str []) ⟨none, none⟩ rfl rfl).2 7⟩

/-- Claim C4: a two-token string descriptor `t h` with operator token `t`
and hex-digit token `h` parsing to `r` constructs a predicate whose
stored match type is the one named by the token (`==` keeps the Equal
default), and whose `matches` on a present candidate `c` is the
arithmetic comparison `c t r` with the candidate on the left; `<=`/`>=`
include equality, `<`/`>` exclude it. -/
theorem claim_C4 (t : CmpTok) (hs : List Char) (r : Int)
    (h1 : hs ≠ []) (h2 : ∀ c ∈ hs, (hexDigVal c).isSome = true)
    (h3 : pyLong16 hs = some r) :
    NumberMatch.construct (.str (t.tok ++ ' ' :: hs)) = .ok ⟨t.toMT, some r⟩ ∧
    ∀ c : Int, NumberMatch.matches ⟨t.toMT, some r⟩ (some c) = t.eval c r := by
  obtain ⟨c0, t0, rfl⟩ : ∃ c0 t0, hs = c0 :: t0 := by
    cases hs with
    | nil => exact absurd rfl h1
    | cons c0 t0 => exact ⟨c0, t0, rfl⟩
  have hns : pyIsSpace c0 = false :=
    hexDigVal_isSome_not_space (h2 c0 (by simp))
  have htok1 : t.tok ≠ [] := by cases t <;> decide
  have htok2 : ∀ x ∈ t.tok, pyIsSpace x = false := by cases t <;> decide
  have hsplit : pySplit1 (t.tok ++ ' ' :: c0 :: t0) = [t.tok, c0 :: t0] :=
    pySplit1_two t.tok c0 t0 htok1 htok2 hns
  have hlen : (t.tok ++ ' ' :: c0 :: t0).length > 0 := by
    rw [List.length_append, List.length_cons]
    omega
  have hparse : ∀ mt : Option NumberMatchType,
      parseNumToken mt (c0 :: t0) = .ok ⟨mt, some r⟩ := by
    intro mt
    unfold parseNumToken
    rw [h3]
  constructor
  · simp only [NumberMatch.construct]
    rw [if_pos hlen]
    simp only [hsplit]
    cases t with
    | eq =>
        rw [show CmpTok.tok .eq = "==".toList from rfl, if_pos rfl]
        exact hparse none
    | lt =>
        rw [show CmpTok.tok .lt = "<".toList from rfl,
            if_neg (by decide), if_pos rfl]
        exact hparse (some .LT)
    | le =>
        rw [show CmpTok.tok .le = "<=".toList from rfl,
            if_neg (by decide), if_neg (by decide), if_pos rfl]
        exact hparse (some .LE)
    | gt =>
        rw [show CmpTok.tok .gt = ">".toList from rfl,
            if_neg (by decide), if_neg (by decide), if_neg (by decide),
            if_pos rfl]
        exact hparse (some .GT)
    | ge =>
        rw [show CmpTok.tok .ge = ">=".toList from rfl,
            if_neg (by decide), if_neg (by decide), if_neg (by decide),
            if_neg (by decide), if_pos rfl]
        exact hparse (some .GE)
  · intro c
    cases t <;> rfl

theorem claim_C4_witness :
    NumberMatch.construct (.str "< 7fff0000".toList) =
        .ok ⟨some .LT, some 2147418112⟩ ∧
      NumberMatch.matches ⟨some .LT, some 2147418112⟩ (some 4096) = true ∧
      NumberMatch.matches ⟨some .LT, some 2147418112⟩ (some 2147483648) = false := by
  have h := claim_C4 .lt "7fff0000".toList 2147418112
    (by decide) (by decide) (by decide)
  exact ⟨h.1, (h.2 4096).trans (by decide), (h.2 2147483648).trans (by decide)⟩

/-- Claim C5: construction failures are values of the constructor (raised
at construction time); a successfully constructed text predicate never
fails at query time (its `matches` always produces a boolean), and a
successfully constructed numeric predicate's `matches` is a total
boolean function of its optional-integer candidate. -/
theorem claim_C5 :
    (∀ (d : StrDescriptor) (m : StringMatch),
       StringMatch.construct d = .ok m → ∀ s, (m.matches s).isSome = true) ∧
    (∀ (d : NumDescriptor) (m : NumberMatch),
       NumberMatch.construct d = .ok m → ∀ v : Option Int,
         m.matches v = true ∨ m.matches v = false) := by
  constructor
  · intro d m h s
    unfold StringMatch.matches
    by_cases hP : m.isPCRE = true
    · rcases stringMatch_ok_regex h hP with ⟨r, hr⟩
      rw [if_pos (by simp [hP]), hr]
      rfl
    · rw [if_neg (by simp [hP])]
      rfl
  · intro d m h v
    cases hb : m.matches v
    · exact Or.inr rfl
    · exact Or.inl rfl

theorem claim_C5_witness :
    ((⟨['a'], false, none⟩ : StringMatch).matches ['b']).isSome = true :=
  claim_C5.1 (.str ['a']) ⟨['a'], false, none⟩ (by decide) ['b']

/-- Counterexample to claim C6: the one-character descriptor `"/"` is NOT
treated as a literal pattern — the source checks only `startswith` and
`endswith` with no length requirement, so `"/"` becomes a regex-mode
predicate whose pattern is the empty string. -/
theorem claim_C6_counterexample :
    StringMatch.construct (.str ['/']) =
      .ok ⟨[], true, some Regex.eps⟩ := by
  decide

/-- Claim C6 (amended): a string descriptor yields regex mode exactly when
it starts with `/` AND ends with `/` — with no minimum length, so the
one-character descriptor `"/"` is also regex mode (its pattern is the
empty string); only a string failing that test is kept whole as a
literal pattern, and in regex mode the pattern is the text between the
delimiters. -/
theorem claim_C6 (s : List Char) (m : StringMatch)
    (h : StringMatch.construct (.str s) = .ok m) :
    (m.isPCRE = (startsWithL s ['/'] && endsWithL s ['/'])) ∧
    (m.isPCRE = false → m.value = s) ∧
    (m.isPCRE = true → m.value = (s.drop 1).dropLast) := by
  simp only [StringMatch.construct] at h
  by_cases hc : (startsWithL s ['/'] && endsWithL s ['/']) = true
  · rw [if_pos hc] at h
    cases hp : parseRegex ((s.drop 1).dropLast) with
    | none =>
        rw [hp] at h
        exact Except.noConfusion h
    | some r =>
        rw [hp] at h
        injection h with h'
        subst h'
        refine ⟨hc.symm, ?_, ?_⟩
        · intro hf
          exact absurd hf (by simp)
        · intro _
          rfl
  · rw [if_neg hc] at h
    injection h with h'
    subst h'
    rw [Bool.not_eq_true] at hc
    refine ⟨hc.symm, ?_, ?_⟩
    · intro _
      rfl
    · intro ht
      exact absurd ht (by simp)

theorem claim_C6_witness :
    (⟨['x'], false, none⟩ : StringMatch).isPCRE =
      (startsWithL ['x'] ['/'] && endsWithL ['x'] ['/']) :=
  (claim_C6 ['x'] ⟨['x'], false, none⟩ (by decide)).1

/-- Claim C7: construction fails with the unknown-operator error naming the
offending token exactly when a structured text descriptor carries a
`value` and a `matchType` whose lower-casing is neither `contains` nor
`pcre`, or a numeric string descriptor splits into two or more tokens
whose first is none of `==`, `<`, `<=`, `>`, `>=`; in particular the
numeric descriptor `"~~ 10"` fails naming `~~`. -/
theorem claim_C7 :
    (∀ (value mt : Option (List Char)) (tok : List Char),
       StringMatch.construct (.obj value mt) = .error (.unknownOperator tok) ↔
         value.isSome = true ∧ mt = some tok ∧
           lowerL tok ≠ "contains".toList ∧ lowerL tok ≠ "pcre".toList) ∧
    (∀ (s tok : List Char),
       NumberMatch.construct (.str s) = .error (.unknownOperator tok) ↔
         ∃ rest tl, pySplit1 s = tok :: rest :: tl ∧ isOpTok tok = false) ∧
    NumberMatch.construct (.str "~~ 10".toList) =
      .error (.unknownOperator "~~".toList) := by
  refine ⟨?_, ?_, by decide⟩
  · intro value mt tok
    cases value with
    | none =>
        simp [StringMatch.construct, getStringChecked]
    | some v =>
        cases mt with
        | none =>
            simp [StringMatch.construct, getStringChecked]
        | some t =>
            simp only [StringMatch.construct, getStringChecked]
            by_cases h1 : lowerL t = "contains".toList
            · rw [if_pos h1]
              simp only [Option.isSome_some, Option.some.injEq, true_and]
              constructor
              · intro hx
                exact Except.noConfusion hx
              · rintro ⟨rfl, hne, _⟩
                exact absurd h1 hne
            · rw [if_neg h1]
              by_cases h2 : lowerL t = "pcre".toList
              · rw [if_pos h2]
                cases hp : parseRegex v with
                | none =>
                    simp only [Option.isSome_some, Option.some.injEq, true_and]
                    constructor
                    · intro hx
                      injection hx with hx
                      exact MatchError.noConfusion hx
                    · rintro ⟨rfl, _, hne⟩
                      exact absurd h2 hne
                | some r =>
                    simp only [Option.isSome_some, Option.some.injEq, true_and]
                    constructor
                    · intro hx
                      exact Except.noConfusion hx
                    · rintro ⟨rfl, _, hne⟩
                      exact absurd h2 hne
              · rw [if_neg h2]
                simp only [Option.isSome_some, Option.some.injEq, true_and]
                constructor
                · intro hx
                  injection hx with hx
                  injection hx with hx
                  subst hx
                  exact ⟨rfl, h1, h2⟩
                · rintro ⟨rfl, _, _⟩
                  rfl
  · intro s tok
    constructor
    · intro h
      rcases NumberMatch.construct_str_spec s with
        ⟨_, hc⟩ | ⟨_, hsp, hc⟩ | ⟨tk, _, hsp, hc⟩ |
          ⟨tk, rest, tl, _, hsp, hor⟩
      · rw [hc] at h
        exact Except.noConfusion h
      · rw [hc] at h
        injection h with h'
        exact MatchError.noConfusion h'
      · rw [hc] at h
        exact absurd h (parseNumToken_ne_unknownOperator _ _ _)
      · rcases hor with ⟨_, hc⟩ | ⟨hop, hc⟩
        · rw [hc] at h
          exact absurd h (parseNumToken_ne_unknownOperator _ _ _)
        · rw [hc] at h
          injection h with h'
          injection h' with h'
          subst h'
          exact ⟨rest, tl, hsp, hop⟩
    · rintro ⟨rest, tl, hsp, hop⟩
      rcases NumberMatch.construct_str_spec s with
        ⟨h0, _⟩ | ⟨_, hsp', _⟩ | ⟨tk, _, hsp', _⟩ |
          ⟨tk, r2, tl2, _, hsp', hor⟩
      · subst h0
        rw [show pySplit1 ([] : List Char) = [] from rfl] at hsp
        exact List.noConfusion hsp
      · rw [hsp'] at hsp
        exact List.noConfusion hsp
      · rw [hsp'] at hsp
        injection hsp with h1 h2
        exact List.noConfusion h2
      · rw [hsp'] at hsp
        injection hsp with h1 h2
        injection h2 with h2 h3
        subst h1
        rcases hor with ⟨hopT, _⟩ | ⟨_, hc⟩
        · rw [hopT] at hop
          exact Bool.noConfusion hop
        · exact hc

theorem claim_C7_witness :
    NumberMatch.construct (.str ['~', '~', ' ', '1', '0']) =
      .error (.unknownOperator ['~', '~']) :=
  (claim_C7.2.1 ['~', '~', ' ', '1', '0'] ['~', '~']).mpr
    ⟨['1', '0'], [], by decide, by decide⟩

/-- Counterexample to claim C8: the descriptor `"-5"` does NOT fail with
the invalid-number error — Python's `long("-5", 16)` accepts a sign, so
construction succeeds and stores the negative reference value `-5`. -/
theorem claim_C8_counterexample :
    NumberMatch.construct (.str "-5".toList) = .ok ⟨none, some (-5)⟩ := by
  decide

/-- Claim C8 (amended): the numeric string parser always reads base 16 but
accepts an optional sign, so a single-token descriptor whose token
parses to a negative value constructs successfully with that negative
reference value — constructed predicates can carry a negative
`referenceValue`. -/
theorem claim_C8 (tok : List Char) (v : Int)
    (h1 : tok ≠ []) (h2 : ∀ c ∈ tok, pyIsSpace c = false)
    (h3 : pyLong16 tok = some v) (_h4 : v < 0) :
    NumberMatch.construct (.str tok) = .ok ⟨none, some v⟩ := by
  have hsp := pySplit1_single tok h1 h2
  have hlen : tok.length > 0 := List.length_pos.mpr h1
  simp only [NumberMatch.construct]
  rw [if_pos hlen]
  simp only [hsp]
  unfold parseNumToken
  rw [h3]

theorem claim_C8_witness :
    NumberMatch.construct (.str ['-', '5']) = .ok ⟨none, some (-5)⟩ :=
  claim_C8 ['-', '5'] (-5) (by decide) (by decide) (by decide) (by decide)

/-- Claim C9: the POST loop of `Collector.submit` sleeps 2 seconds before
the first retry and doubles each time, so its sleep sequence is always a
prefix of `[2, 4, 8, 16, 32, 64]` (at most 6 retries, total wait at most
126 seconds); every retry is triggered by a response in
`{500, 502, 503, 504}`; any other non-created status fails immediately
with no retry; and seven consecutive retryable responses exhaust all six
retries and surface the hard failure. -/
theorem claim_C9 :
    (∀ rs : List Nat, ∃ n, n ≤ 6 ∧
       (submit rs).sleeps = [2, 4, 8, 16, 32, 64].take n ∧
       (submit rs).sleeps.sum ≤ 126) ∧
    (∀ (rs : List Nat) (i : Nat), i < (submit rs).sleeps.length →
       ∃ c, rs[i]? = some c ∧ c ∈ retryCodes ∧ c ≠ createdCode) ∧
    (∀ (c : Nat) (rest : List Nat), c ≠ createdCode → c ∉ retryCodes →
       submit (c :: rest) = ⟨[], .serverError c⟩) ∧
    submit [500, 500, 500, 500, 500, 500, 500] =
      ⟨[2, 4, 8, 16, 32, 64], .serverError 500⟩ := by
  refine ⟨?_, ?_, ?_, by decide⟩
  · intro rs
    rcases submit_sleeps_take rs with ⟨n, hn6, hr⟩
    refine ⟨n, hn6, hr, ?_⟩
    rw [hr]
    have hcase : n = 0 ∨ n = 1 ∨ n = 2 ∨ n = 3 ∨ n = 4 ∨ n = 5 ∨ n = 6 := by
      omega
    rcases hcase with rfl | rfl | rfl | rfl | rfl | rfl | rfl <;> decide
  · intro rs i hi
    exact submitLoop_retry_responses rs 2 i hi
  · intro c rest h1 h2
    unfold submit submitLoop
    rw [if_pos h1, if_neg (fun hx => h2 hx.1)]

theorem claim_C9_witness : submit [418] = ⟨[], .serverError 418⟩ :=
  claim_C9.2.2.1 418 [] (by decide) (by decide)

/-- Claim C10: a text predicate with an empty pattern matches every
candidate — both the literal predicate built from the empty-string
descriptor and the regex predicate built from `"//"` (which strips to
the empty pattern) return true on every string; for the text predicate
the empty descriptor builds a normal always-true literal matcher,
whereas the numeric predicate turns the empty descriptor into the
absent-value sentinel. -/
theorem claim_C10 :
    (StringMatch.construct (.str []) = .ok ⟨[], false, none⟩ ∧
       ∀ s, (⟨[], false, none⟩ : StringMatch).matches s = some true) ∧
    (StringMatch.construct (.str ['/', '/']) = .ok ⟨[], true, some .eps⟩ ∧
       ∀ s, (⟨[], true, some .eps⟩ : StringMatch).matches s = some true) ∧
    NumberMatch.construct (.str []) = .ok ⟨none, none⟩ := by
  refine ⟨⟨by decide, ?_⟩, ⟨by decide, ?_⟩, by decide⟩
  · intro s
    unfold StringMatch.matches
    rw [if_neg (by simp)]
    have : containsSub s [] = true := by
      cases s with
      | nil => rfl
      | cons c t =>
          rw [show containsSub (c :: t) [] =
                (startsWithL (c :: t) [] || containsSub t []) from rfl]
          rw [show startsWithL (c :: t) [] = true from rfl]
          rfl
    rw [this]
  · intro s
    unfold StringMatch.matches
    rw [if_pos rfl]
    show some (Regex.regexSearch .eps s) = some true
    have : Regex.regexSearch .eps s = true := by
      cases s with
      | nil => rfl
      | cons c t =>
          rw [show Regex.regexSearch .eps (c :: t) =
                (Regex.searchHere .eps (c :: t) || Regex.regexSearch .eps t)
              from rfl]
          rw [show Regex.searchHere .eps (c :: t) =
                (Regex.nullable .eps || Regex.searchHere (Regex.deriv .eps c) t)
              from rfl]
          rfl
    rw [this]
